import Mathlib

/-!
Verification development for the recursive-LLM engine (`rlm` package).

The Python sources are shallowly embedded:
* `parser.py`  — terminal-statement extraction (`extract_final`,
  `extract_final_var`, `is_final`, `parse_response`);
* `prompts.py` — `build_system_prompt`;
* `repl.py`    — the observation post-processing of `REPLExecutor.execute`
  (output composition with the last-line expression value, the empty-output
  message, stripping and truncation);
* `core.py`    — `RLM.acompletion`: argument normalization, the depth
  precondition, initial message construction, the bounded REPL loop, and the
  statistics counters.

Python's regular expressions over the four `FINAL(...)` patterns and the
`FINAL_VAR(...)` pattern are embedded as explicit leftmost-match scanners
with the exact greedy/character-class semantics of the source patterns,
restricted to the ASCII fragment of the `\s` / `\w` character classes.
The model call (`litellm.acompletion`) and the sandboxed execution of the
model-written code are external effects; runs are parameterized by an
oracle giving the text of each model response and by an executor function
giving the observation and updated environment for each executed fragment
(in the source, `RLM.acompletion` wraps `REPLExecutor.execute` in
`try/except`, so the executor seen by the loop always returns a string).
Python values stored in the REPL environment are modelled by `PyVal`,
carrying enough structure to compute `str(value)`.
-/

namespace RLMSpec

/-- ASCII fragment of Python's whitespace class `\s` (also the characters
`str.strip` removes): space, tab, newline, carriage return, vertical tab,
form feed. -/
def pyIsSpace (c : Char) : Bool :=
  c = ' ' || c = '\t' || c = '\n' || c = '\x0d' || c = '\x0b' || c = '\x0c'

/-- ASCII fragment of Python's word class `\w`: letters, digits, underscore. -/
def pyIsWord (c : Char) : Bool :=
  c.isAlpha || c.isDigit || c = '_'

/-- `\s*`: greedily skip whitespace. -/
def dropSpaces (s : List Char) : List Char :=
  s.dropWhile pyIsSpace

/-- Python `str.strip()` on a character list: remove leading and trailing
whitespace, keep internal whitespace. -/
def pyStripList (s : List Char) : List Char :=
  ((s.dropWhile pyIsSpace).reverse.dropWhile pyIsSpace).reverse

/-- Python `str.strip()`. -/
def pyStrip (s : String) : String :=
  ⟨pyStripList s.toList⟩

/-- Substring test, Python's `needle in hay` on lists of characters. -/
def containsSub (needle : List Char) : List Char → Bool
  | [] => needle.isEmpty
  | c :: rest => needle.isPrefixOf (c :: rest) || containsSub needle rest

/-- Python `needle in hay` on strings. -/
def strContains (hay needle : String) : Bool :=
  containsSub needle.toList hay.toList

/-- Match a literal character sequence at the head of the input, returning
the remainder. -/
def matchLit : List Char → List Char → Option (List Char)
  | [], s => some s
  | _ :: _, [] => none
  | k :: kw, c :: s => if c = k then matchLit kw s else none

/-- The literal `FINAL`. -/
def finalKw : List Char := ['F', 'I', 'N', 'A', 'L']

/-- The literal `FINAL_VAR`. -/
def finalVarKw : List Char := ['F', 'I', 'N', 'A', 'L', '_', 'V', 'A', 'R']

/-- Match `<kw>\s*\(\s*` at the head of the input, returning the remainder.
Shared prefix of all five source regexes. -/
def matchOpen (kw : List Char) (s : List Char) : Option (List Char) :=
  match matchLit kw s with
  | some s1 =>
    match dropSpaces s1 with
    | c :: s2 => if c = '(' then some (dropSpaces s2) else none
    | [] => none
  | none => none

/-- `([^q]*)q`: capture up to the next occurrence of the quote character;
fail if the input has no further quote. -/
def captureTo (q : Char) : List Char → Option (List Char)
  | [] => none
  | c :: rest => if c = q then some [] else (captureTo q rest).map (c :: ·)

/-- Greedy `(.*)qqq` under `re.DOTALL`: capture everything up to the LAST
occurrence of the triple quote; fail if there is none.  The capture may
contain newlines. -/
def greedyTriple (q : Char) : List Char → Option (List Char)
  | [] => none
  | c :: rest =>
    match greedyTriple q rest with
    | some body => some (c :: body)
    | none => if (c :: rest).take 3 = [q, q, q] then some [] else none

/-- Attempt `FINAL\s*\(\s*qqq(.*)qqq` at the head of the input. -/
def matchTripleAt (q : Char) (s : List Char) : Option (List Char) :=
  match matchOpen finalKw s with
  | some s3 => if s3.take 3 = [q, q, q] then greedyTriple q (s3.drop 3) else none
  | none => none

/-- Attempt `FINAL\s*\(\s*q([^q]*)q` at the head of the input. -/
def matchQuoteAt (q : Char) (s : List Char) : Option (List Char) :=
  match matchOpen finalKw s with
  | some s3 =>
    match s3 with
    | c :: s4 => if c = q then captureTo q s4 else none
    | [] => none
  | none => none

/-- `re.search`: try the matcher at every position, leftmost match wins. -/
def searchWith (m : List Char → Option (List Char)) : List Char → Option (List Char)
  | [] => m []
  | c :: rest =>
    match m (c :: rest) with
    | some r => some r
    | none => searchWith m rest

/-- The four quoting styles of `extract_final`. -/
inductive Pat where
  | tripleDouble
  | tripleSingle
  | doubleQ
  | singleQ
deriving DecidableEq

/-- `re.search(pattern, response, re.DOTALL)` for one of the four source
patterns. -/
def runPat : Pat → List Char → Option (List Char)
  | .tripleDouble => searchWith (matchTripleAt '\x22')
  | .tripleSingle => searchWith (matchTripleAt '\x27')
  | .doubleQ => searchWith (matchQuoteAt '\x22')
  | .singleQ => searchWith (matchQuoteAt '\x27')

/-- The pattern list of `extract_final`, in source order: triple double
quotes, triple single quotes, double quotes, single quotes. -/
def patterns : List Pat := [.tripleDouble, .tripleSingle, .doubleQ, .singleQ]

/-- The `for pattern in patterns` loop of `extract_final`: first matching
pattern wins. -/
def runPats : List Pat → List Char → Option (List Char)
  | [], _ => none
  | p :: ps, l =>
    match runPat p l with
    | some r => some r
    | none => runPats ps l

/-- `parser.extract_final`: extract the answer of a `FINAL(...)` statement,
trying the four quoting styles in source order and stripping the capture. -/
def extract_final (response : String) : Option String :=
  (runPats patterns response.toList).map (fun r => (⟨pyStripList r⟩ : String))

/-- Values a REPL environment binding can hold, with enough structure to
compute Python's `str(value)`.  Bindings whose textual form is irrelevant
to the claims (the recursive-call closure, the `re` module) are carried as
`opaqueVal` with their textual form. -/
inductive PyVal where
  | pyStr (s : String)
  | pyInt (n : Int)
  | pyBool (b : Bool)
  | opaqueVal (txt : String)
deriving DecidableEq

/-- Python `str(value)`. -/
def pyStrOf : PyVal → String
  | .pyStr s => s
  | .pyInt n => toString n
  | .pyBool b => if b then "True" else "False"
  | .opaqueVal txt => txt

/-- The REPL environment: a finite mapping from identifiers to values
(a Python dict, modelled as an association list with first-key-wins
lookup). -/
abbrev Env := List (String × PyVal)

/-- Attempt `FINAL_VAR\s*\(\s*(\w+)\s*\)` at the head of the input,
returning the captured identifier. -/
def matchFinalVarAt (s : List Char) : Option (List Char) :=
  match matchOpen finalVarKw s with
  | some s3 =>
    let name := s3.takeWhile pyIsWord
    if name.isEmpty then none
    else
      match dropSpaces (s3.drop name.length) with
      | c :: _ => if c = ')' then some name else none
      | [] => none
  | none => none

/-- `parser.extract_final_var`: find the first `FINAL_VAR(name)`, look the
identifier up in the environment and return `str(value)`; `none` when there
is no match or the identifier is unbound. -/
def extract_final_var (response : String) (env : Env) : Option String :=
  match searchWith matchFinalVarAt response.toList with
  | some name =>
    match env.lookup (⟨name⟩ : String) with
    | some v => some (pyStrOf v)
    | none => none
  | none => none

/-- `parser.is_final`: cheap substring check for either marker. -/
def is_final (response : String) : Bool :=
  strContains response "FINAL(" || strContains response "FINAL_VAR("

/-- `parser.parse_response`: try `extract_final`, then `extract_final_var`. -/
def parse_response (response : String) (env : Env) : Option String :=
  match extract_final response with
  | some answer => some answer
  | none => extract_final_var response env

/-- Modelled from the spec's words for claim C5 only: the same four
patterns checked in the priority order the spec states — double quote,
single quote, triple double, triple single.  Used solely to compare the
spec's order with the source's order. -/
def claimOrderPatterns : List Pat := [.doubleQ, .singleQ, .tripleDouble, .tripleSingle]

/-- Modelled from the spec's words for claim C5 only: `extract_final` with
the spec's stated pattern priority. -/
def extract_final_claimOrder (response : String) : Option String :=
  (runPats claimOrderPatterns response.toList).map (fun r => (⟨pyStripList r⟩ : String))

/-! ### `repl.py`: observation post-processing of `REPLExecutor.execute`

The sandbox runs arbitrary restricted Python, which is an external effect;
what is embedded is everything `execute` does to the captured output after
the fragment has run: the decision whether the final line's expression value
is appended, the empty-output message, and stripping / truncation.  A run of
the executor is parameterized by the captured stream output and by the
(optional) `str` form of the final line's value (`none` models an `eval`
failure or a `None` result, in which case nothing is appended). -/

/-- Python `code.strip().split('\n')` on a character list (split on every
newline, empty pieces kept). -/
def splitNl : List Char → List (List Char)
  | [] => [[]]
  | c :: rest =>
    if c = '\n' then [] :: splitNl rest
    else
      match splitNl rest with
      | l :: ls => (c :: l) :: ls
      | [] => [[c]]

/-- The substrings whose presence in the last line suppresses the
expression-value append: `lines = code.strip().split('\n');
last_line = lines[-1].strip()` is checked against this list. -/
def kwChecks : List (List Char) :=
  [['='], "import".toList, "def".toList, "class".toList,
   "if".toList, "for".toList, "while".toList, "with".toList]

/-- `lines[-1].strip()` for `lines = code.strip().split('\n')`. -/
def lastLineOf (code : String) : List Char :=
  pyStripList ((splitNl (pyStripList code.toList)).getLastD [])

/-- The source's trigger for evaluating the last line as an expression:
`if last_line and not any(kw in last_line for kw in [...])`. -/
def evalsLastLine (code : String) : Bool :=
  let ll := lastLineOf code
  !ll.isEmpty && !(kwChecks.any (fun kw => containsSub kw ll))

/-- The captured output of one fragment: the stream output, plus
`str(result) + '\n'` when the last-line check fires and the evaluation
produced a value (`output += str(result) + '\n'`). -/
def composedOutput (code streamOut : String) (evalResult : Option String) : String :=
  if evalsLastLine code then
    match evalResult with
    | some v => streamOut ++ v ++ "\n"
    | none => streamOut
  else streamOut

/-- The tail of `REPLExecutor.execute`: the fixed message for empty output,
then truncation to `max_output_chars` with the marker, else `output.strip()`. -/
def observation (budget : Nat) (output : String) : String :=
  if output = "" then "Code executed successfully (no output)"
  else if budget < output.length then
    (⟨output.toList.take budget⟩ : String) ++ "\n\n[Output truncated: " ++
      toString output.length ++ " chars total, showing first " ++ toString budget ++ "]"
  else pyStrip output

/-- `REPLExecutor.execute` from the point where the fragment has produced
its stream output: compose with the last-line value, then post-process. -/
def executeObservation (budget : Nat) (code streamOut : String)
    (evalResult : Option String) : String :=
  observation budget (composedOutput code streamOut evalResult)

/-- Modelled from the spec's words for claim C8 only: "the fragment's final
non-blank line is a standalone expression (not an assignment and not
starting a control-flow construct)" — no `=` anywhere in the line, and the
line does not start with a control-flow keyword. -/
def specStandaloneExpr (code : String) : Bool :=
  let ll := lastLineOf code
  !ll.isEmpty && !(containsSub ['='] ll) &&
    !((["import", "def", "class", "if", "for", "while", "with"].map String.toList).any
        (fun kw => kw.isPrefixOf ll))

/-! ### `prompts.py` -/

/-- Digit grouping of Python's `format(n, ',')`, on the reversed digit
list: a comma after every three digits. -/
def commaGroupRev : List Char → List Char
  | a :: b :: c :: d :: rest => a :: b :: c :: ',' :: commaGroupRev (d :: rest)
  | l => l

/-- Python `f"{n:,}"`: decimal with thousands separators. -/
def pyCommaFormat (n : Nat) : String :=
  ⟨(commaGroupRev (toString n).toList.reverse).reverse⟩

/-- `prompts.build_system_prompt`: the system prompt, a function of the
context's character count and the depth only. -/
def build_system_prompt (context_size depth : Nat) : String :=
  "You are a Recursive Language Model. You interact with context through a Python REPL environment.\n\nThe context is stored in variable \x60context\x60 (not in this prompt). Size: " ++
  pyCommaFormat context_size ++
  " characters.\nIMPORTANT: You cannot see the context directly. You MUST write Python code to search and explore it.\n\nAvailable in environment:\n- context: str (the document to analyze)\n- query: str (the question)\n- recursive_llm(sub_query, sub_context) -> str (recursively process sub-context)\n- re: already imported regex module (use re.findall, re.search, etc.)\n\nWrite Python code to answer the query. The last expression or print() output will be shown to you.\n\nExamples:\n- print(context[:500])  # See first 500 chars\n- matches = re.findall(r\x27keyword.*\x27, context); print(matches[:5])\n- idx = context.find(\x27search term\x27); print(context[idx:idx+200])\n\nCRITICAL: Do NOT guess or make up answers. You MUST search the context first to find the actual information.\nOnly use FINAL(\x22answer\x22) after you have found concrete evidence in the context.\n\nDepth: " ++
  toString depth

/-! ### `core.py`: `RLM.acompletion` -/

/-- One chat message. -/
structure Message where
  role : String
  content : String
deriving DecidableEq

/-- The mutable statistics counters of an `RLM` instance
(`self._llm_calls`, `self._iterations`). -/
structure RLMState where
  llm_calls : Nat
  iterations : Nat
deriving DecidableEq

/-- How one `acompletion` call ends: a returned answer, a raised
`MaxIterationsError`, or a raised `MaxDepthError`. -/
inductive RLMOutcome where
  | answer (s : String)
  | maxIterations
  | maxDepth
deriving DecidableEq

/-- Result of one `acompletion` call: the outcome, the final message
history of the session, and the instance counters afterwards. -/
structure RunResult where
  outcome : RLMOutcome
  messages : List Message
  state : RLMState
deriving DecidableEq

/-- Instance configuration relevant to the loop
(`max_depth`, `max_iterations`). -/
structure RLMConfig where
  max_depth : Nat
  max_iterations : Nat

/-- One request together with its external collaborators: `oracle i` is the
text of the model's `i`-th response in this run; `exec` is the observation
and updated environment produced by executing a response (the loop wraps
`REPLExecutor.execute` in `try/except`, so it always yields a string). -/
structure RunSpec where
  query : String
  context : String
  depth : Nat
  oracle : Nat → String
  exec : String → Env → String × Env

/-- The argument normalization at the head of `acompletion`:
`if query and not context: context = query; query = ""`. -/
def normalizeArgs (query context : String) : String × String :=
  if query ≠ "" ∧ context = "" then ("", query) else (query, context)

/-- `_build_repl_env`: the initial REPL environment of a session. -/
def build_repl_env (query context : String) : Env :=
  [("context", .pyStr context), ("query", .pyStr query),
   ("recursive_llm", .opaqueVal "<function recursive_llm>"),
   ("re", .opaqueVal "<module re>")]

/-- The initial message sequence of a session: one system message built
from the context's character count and depth, one user message carrying the
query. -/
def mkInitialMessages (query context : String) (depth : Nat) : List Message :=
  [⟨"system", build_system_prompt context.length depth⟩, ⟨"user", query⟩]

/-- The `for iteration in range(self.max_iterations)` loop of
`acompletion`: set the iteration counter, count and make the model call,
return on a resolved terminal statement, otherwise execute the response and
append the assistant/observation message pair. -/
def rlmLoop (oracle : Nat → String) (exec : String → Env → String × Env) :
    Nat → Nat → Env → List Message → RLMState → RunResult
  | 0, _, _, msgs, st => ⟨.maxIterations, msgs, st⟩
  | remaining + 1, iter, env, msgs, st =>
    let st' : RLMState := ⟨st.llm_calls + 1, iter + 1⟩
    let response := oracle iter
    match (if is_final response then parse_response response env else none) with
    | some answer => ⟨.answer answer, msgs, st'⟩
    | none =>
      let res := exec response env
      rlmLoop oracle exec remaining (iter + 1) res.2
        (msgs ++ [⟨"assistant", response⟩, ⟨"user", res.1⟩]) st'

/-- `RLM.acompletion`: normalize the arguments, check the depth
precondition before anything else, build the environment and the initial
messages, then run the bounded loop. -/
def acompletion (cfg : RLMConfig) (spec : RunSpec) (st : RLMState) : RunResult :=
  let qc := normalizeArgs spec.query spec.context
  if cfg.max_depth ≤ spec.depth then ⟨.maxDepth, [], st⟩
  else
    rlmLoop spec.oracle spec.exec cfg.max_iterations 0
      (build_repl_env qc.1 qc.2)
      (mkInitialMessages qc.1 qc.2 spec.depth) st

/-- The read-only statistics snapshot `RLM.stats`. -/
structure StatsSnapshot where
  llm_calls : Nat
  iterations : Nat
  depth : Nat
deriving DecidableEq

/-- `RLM.stats`: expose the counters and the depth. -/
def stats (st : RLMState) (depth : Nat) : StatsSnapshot :=
  ⟨st.llm_calls, st.iterations, depth⟩

/-- A sequence of completion runs on the same instance, threading the
instance counters through. -/
def runMany (cfg : RLMConfig) : List RunSpec → RLMState → RLMState
  | [], st => st
  | r :: rs, st => runMany cfg rs (acompletion cfg r st).state

/-- The number of model calls one run makes (measured from a zeroed
counter). -/
def callsMade (cfg : RLMConfig) (r : RunSpec) : Nat :=
  (acompletion cfg r ⟨0, 0⟩).state.llm_calls

/-- A message whose content is one of the model's own responses. -/
def oracleMsg (oracle : Nat → String) (m : Message) : Prop :=
  m.role = "assistant" ∧ ∃ i, m.content = oracle i

/-- A message whose content is an observation the executor returned. -/
def execMsg (exec : String → Env → String × Env) (m : Message) : Prop :=
  m.role = "user" ∧ ∃ r env, m.content = (exec r env).1

/-! ### Concrete fixtures used by the witness theorems -/

/-- Configuration with `max_depth = 5`, `max_iterations = 3`. -/
def cfgW : RLMConfig := ⟨5, 3⟩

/-- A run whose model responses never contain a terminal marker and whose
executions all fail (the loop sees the translated error observation). -/
def specLoopW : RunSpec :=
  ⟨"Test", "Context", 0, fun _ => "x = 1",
   fun _ env => ("Error: division by zero", env)⟩

/-- A run whose first response is the empty inline literal `FINAL("")`. -/
def specFinalW : RunSpec :=
  ⟨"Test", "Context", 0, fun _ => "FINAL(\x22\x22)", fun _ env => ("obs", env)⟩

/-- A run constructed at depth 2. -/
def specDepthW : RunSpec :=
  ⟨"Test", "Context", 2, fun _ => "FINAL(\x22a\x22)", fun _ env => ("obs", env)⟩

/-- Configuration with `max_depth = 2`, matching `specDepthW`'s depth. -/
def cfgDepthW : RLMConfig := ⟨2, 30⟩

/-- An environment binding `x` to the string `"test value"`. -/
def envW : Env := [("x", .pyStr "test value")]

/-- A constant oracle answering with an unresolvable variable reference. -/
def oracleVarW : Nat → String := fun _ => "FINAL_VAR(missing)"

/-- An executor returning a fixed observation and leaving the environment
unchanged. -/
def execW : String → Env → String × Env := fun _ env => ("obs", env)

/-- The environment the loop holds at the start of iteration `i` when no
earlier iteration terminated the session: the initial environment threaded
through the executor once per earlier response. -/
def envAt (o : Nat → String) (e : String → Env → String × Env) (env0 : Env) : Nat → Env
  | 0 => env0
  | i + 1 => (e (o i) (envAt o e env0 i)).2

/-- A run whose every response is `FINAL_VAR(missing)`: a terminal marker
that is unresolvable in the run's actual environments (the executor never
binds `missing`), though it would resolve in an environment that did bind
it. -/
def specVarLoopW : RunSpec :=
  ⟨"Test", "Context", 0, fun _ => "FINAL_VAR(missing)",
   fun _ env => ("obs", env)⟩

/-! ### Helper lemmas about the regex embedding -/

theorem matchLit_append (kw s : List Char) : matchLit kw (kw ++ s) = some s := by
  induction kw with
  | nil => rfl
  | cons k kw ih => simp [matchLit, ih]

theorem matchLit_suffix {kw s s1 : List Char} (h : matchLit kw s = some s1) :
    s1 <:+ s := by
  induction kw generalizing s with
  | nil =>
    simp only [matchLit, Option.some.injEq] at h
    exact h ▸ List.suffix_refl s
  | cons k kw ih =>
    cases s with
    | nil => simp [matchLit] at h
    | cons c rest =>
      simp only [matchLit] at h
      split at h
      · exact (ih h).trans (List.suffix_cons c rest)
      · cases h

theorem dropSpaces_suffix (s : List Char) : dropSpaces s <:+ s :=
  List.dropWhile_suffix pyIsSpace

theorem dropSpaces_cons {c : Char} (hc : pyIsSpace c = false) (rest : List Char) :
    dropSpaces (c :: rest) = c :: rest := by
  show (c :: rest).dropWhile pyIsSpace = c :: rest
  rw [List.dropWhile_cons, hc]
  simp

theorem matchOpen_suffix {kw s s3 : List Char} (h : matchOpen kw s = some s3) :
    s3 <:+ s := by
  unfold matchOpen at h
  cases hm : matchLit kw s with
  | none => simp only [hm] at h; cases h
  | some s1 =>
    simp only [hm] at h
    cases hd : dropSpaces s1 with
    | nil => simp only [hd] at h; cases h
    | cons c s2 =>
      simp only [hd] at h
      split at h
      · cases h
        have hs2 : s2 <:+ s1 := by
          have hds := dropSpaces_suffix s1
          rw [hd] at hds
          exact (List.suffix_cons c s2).trans hds
        exact (dropSpaces_suffix s2).trans (hs2.trans (matchLit_suffix hm))
      · cases h

theorem searchWith_eq_some {m : List Char → Option (List Char)} {s r : List Char}
    (h : searchWith m s = some r) : ∃ s', s' <:+ s ∧ m s' = some r := by
  induction s with
  | nil => exact ⟨[], List.suffix_refl [], h⟩
  | cons c rest ih =>
    cases hm : m (c :: rest) with
    | some r' =>
      simp only [searchWith, hm] at h
      cases h
      exact ⟨c :: rest, List.suffix_refl _, hm⟩
    | none =>
      simp only [searchWith, hm] at h
      obtain ⟨s', hs, hm'⟩ := ih h
      exact ⟨s', hs.trans (List.suffix_cons c rest), hm'⟩

theorem searchWith_head {m : List Char → Option (List Char)} {c : Char}
    {rest r : List Char} (h : m (c :: rest) = some r) :
    searchWith m (c :: rest) = some r := by
  simp [searchWith, h]

theorem matchTripleAt_has_triple {q : Char} {s r : List Char}
    (h : matchTripleAt q s = some r) : [q, q, q] <:+: s := by
  unfold matchTripleAt at h
  cases hm : matchOpen finalKw s with
  | none => simp only [hm] at h; cases h
  | some s3 =>
    simp only [hm] at h
    split at h
    next ht =>
      have h1 : [q, q, q] <+: s3 := ht ▸ List.take_prefix 3 s3
      exact h1.isInfix.trans (matchOpen_suffix hm).isInfix
    next => cases h

theorem searchTriple_none {q : Char} {l : List Char} (h : l.count q ≤ 2) :
    searchWith (matchTripleAt q) l = none := by
  cases hs : searchWith (matchTripleAt q) l with
  | none => rfl
  | some r =>
    obtain ⟨s', hsuf, hm⟩ := searchWith_eq_some hs
    have hinf : [q, q, q] <:+: l := (matchTripleAt_has_triple hm).trans hsuf.isInfix
    have hc := hinf.sublist.count_le q
    have h3 : ([q, q, q] : List Char).count q = 3 := by simp
    omega

theorem matchQuoteAt_mem {q : Char} {s r : List Char}
    (h : matchQuoteAt q s = some r) : q ∈ s := by
  unfold matchQuoteAt at h
  cases hm : matchOpen finalKw s with
  | none => simp only [hm] at h; cases h
  | some s3 =>
    cases s3 with
    | nil => simp only [hm] at h; cases h
    | cons c s4 =>
      simp only [hm] at h
      split at h
      next hc =>
        have hmem : q ∈ c :: s4 := by rw [← hc]; exact List.mem_cons_self c s4
        exact (matchOpen_suffix hm).subset hmem
      next => cases h

theorem searchQuote_none {q : Char} {l : List Char} (h : q ∉ l) :
    searchWith (matchQuoteAt q) l = none := by
  cases hs : searchWith (matchQuoteAt q) l with
  | none => rfl
  | some r =>
    obtain ⟨s', hsuf, hm⟩ := searchWith_eq_some hs
    exact absurd (hsuf.subset (matchQuoteAt_mem hm)) h

theorem captureTo_append {q : Char} {X : List Char} (r : List Char) (hX : q ∉ X) :
    captureTo q (X ++ q :: r) = some X := by
  induction X with
  | nil => simp [captureTo]
  | cons c X ih =>
    have hc : ¬ c = q := by
      rintro rfl
      exact hX (List.mem_cons_self c X)
    have hX' : q ∉ X := fun hm => hX (List.mem_cons_of_mem c hm)
    simp [captureTo, hc, ih hX']

theorem greedyTriple_closes {q : Char} (hq : ¬ (')' = q)) :
    ∀ X : List Char, q ∉ X → greedyTriple q (X ++ [q, q, q, ')']) = some X := by
  intro X
  induction X with
  | nil =>
    intro _
    simp [greedyTriple, hq]
  | cons c X ih =>
    intro hX
    have hX' : q ∉ X := fun hm => hX (List.mem_cons_of_mem c hm)
    rw [List.cons_append]
    simp only [greedyTriple, ih hX']

theorem matchOpen_append (kw rest : List Char) :
    matchOpen kw (kw ++ '(' :: rest) = some (dropSpaces rest) := by
  unfold matchOpen
  simp only [matchLit_append]
  rw [dropSpaces_cons (by decide) rest]
  simp

theorem runPats_cons_none {p : Pat} {ps : List Pat} {l : List Char}
    (h : runPat p l = none) : runPats (p :: ps) l = runPats ps l := by
  simp [runPats, h]

theorem runPats_cons_some {p : Pat} {ps : List Pat} {l r : List Char}
    (h : runPat p l = some r) : runPats (p :: ps) l = some r := by
  simp [runPats, h]

theorem runPats_double {X : List Char} (h2 : '\x22' ∉ X) (h7 : '\x27' ∉ X) :
    runPats patterns (finalKw ++ '(' :: '\x22' :: (X ++ ['\x22', ')'])) = some X := by
  have hc2 : (finalKw ++ '(' :: '\x22' :: (X ++ ['\x22', ')'])).count '\x22' = 2 := by
    simp [finalKw, List.count_append, List.count_cons, List.count_eq_zero.mpr h2]
  have hc7 : (finalKw ++ '(' :: '\x22' :: (X ++ ['\x22', ')'])).count '\x27' = 0 := by
    simp [finalKw, List.count_append, List.count_cons, List.count_eq_zero.mpr h7]
  have htd : runPat .tripleDouble (finalKw ++ '(' :: '\x22' :: (X ++ ['\x22', ')'])) = none :=
    searchTriple_none (le_of_eq hc2)
  have hts : runPat .tripleSingle (finalKw ++ '(' :: '\x22' :: (X ++ ['\x22', ')'])) = none :=
    searchTriple_none (by rw [hc7]; omega)
  have hdq : runPat .doubleQ (finalKw ++ '(' :: '\x22' :: (X ++ ['\x22', ')'])) = some X := by
    apply searchWith_head
    show matchQuoteAt '\x22' (finalKw ++ '(' :: ('\x22' :: (X ++ ['\x22', ')']))) = some X
    unfold matchQuoteAt
    rw [matchOpen_append, dropSpaces_cons (by decide)]
    simp [captureTo_append [')'] h2]
  show runPats [Pat.tripleDouble, Pat.tripleSingle, Pat.doubleQ, Pat.singleQ] _ = some X
  rw [runPats_cons_none htd, runPats_cons_none hts, runPats_cons_some hdq]

theorem runPats_single {X : List Char} (h2 : '\x22' ∉ X) (h7 : '\x27' ∉ X) :
    runPats patterns (finalKw ++ '(' :: '\x27' :: (X ++ ['\x27', ')'])) = some X := by
  have hc2 : (finalKw ++ '(' :: '\x27' :: (X ++ ['\x27', ')'])).count '\x22' = 0 := by
    simp [finalKw, List.count_append, List.count_cons, List.count_eq_zero.mpr h2]
  have hc7 : (finalKw ++ '(' :: '\x27' :: (X ++ ['\x27', ')'])).count '\x27' = 2 := by
    simp [finalKw, List.count_append, List.count_cons, List.count_eq_zero.mpr h7]
  have hmem : '\x22' ∉ (finalKw ++ '(' :: '\x27' :: (X ++ ['\x27', ')'])) := by
    simp [finalKw, h2]
  have htd : runPat .tripleDouble (finalKw ++ '(' :: '\x27' :: (X ++ ['\x27', ')'])) = none :=
    searchTriple_none (by rw [hc2]; omega)
  have hts : runPat .tripleSingle (finalKw ++ '(' :: '\x27' :: (X ++ ['\x27', ')'])) = none :=
    searchTriple_none (le_of_eq hc7)
  have hdq : runPat .doubleQ (finalKw ++ '(' :: '\x27' :: (X ++ ['\x27', ')'])) = none :=
    searchQuote_none hmem
  have hsq : runPat .singleQ (finalKw ++ '(' :: '\x27' :: (X ++ ['\x27', ')'])) = some X := by
    apply searchWith_head
    show matchQuoteAt '\x27' (finalKw ++ '(' :: ('\x27' :: (X ++ ['\x27', ')']))) = some X
    unfold matchQuoteAt
    rw [matchOpen_append, dropSpaces_cons (by decide)]
    simp [captureTo_append [')'] h7]
  show runPats [Pat.tripleDouble, Pat.tripleSingle, Pat.doubleQ, Pat.singleQ] _ = some X
  rw [runPats_cons_none htd, runPats_cons_none hts, runPats_cons_none hdq,
    runPats_cons_some hsq]

theorem runPats_tripleDouble {X : List Char} (h2 : '\x22' ∉ X) :
    runPats patterns
      (finalKw ++ '(' :: '\x22' :: '\x22' :: '\x22' :: (X ++ ['\x22', '\x22', '\x22', ')']))
      = some X := by
  have htd : runPat .tripleDouble
      (finalKw ++ '(' :: '\x22' :: '\x22' :: '\x22' :: (X ++ ['\x22', '\x22', '\x22', ')']))
      = some X := by
    apply searchWith_head
    show matchTripleAt '\x22'
      (finalKw ++ '(' :: ('\x22' :: '\x22' :: '\x22' :: (X ++ ['\x22', '\x22', '\x22', ')'])))
      = some X
    unfold matchTripleAt
    rw [matchOpen_append, dropSpaces_cons (by decide)]
    simp [greedyTriple_closes (by decide) X h2]
  show runPats [Pat.tripleDouble, Pat.tripleSingle, Pat.doubleQ, Pat.singleQ] _ = some X
  rw [runPats_cons_some htd]

theorem runPats_tripleSingle {X : List Char} (h2 : '\x22' ∉ X) (h7 : '\x27' ∉ X) :
    runPats patterns
      (finalKw ++ '(' :: '\x27' :: '\x27' :: '\x27' :: (X ++ ['\x27', '\x27', '\x27', ')']))
      = some X := by
  have hc2 :
      (finalKw ++ '(' :: '\x27' :: '\x27' :: '\x27' :: (X ++ ['\x27', '\x27', '\x27', ')'])).count '\x22'
      = 0 := by
    simp [finalKw, List.count_append, List.count_cons, List.count_eq_zero.mpr h2]
  have htd : runPat .tripleDouble
      (finalKw ++ '(' :: '\x27' :: '\x27' :: '\x27' :: (X ++ ['\x27', '\x27', '\x27', ')']))
      = none :=
    searchTriple_none (by rw [hc2]; omega)
  have hts : runPat .tripleSingle
      (finalKw ++ '(' :: '\x27' :: '\x27' :: '\x27' :: (X ++ ['\x27', '\x27', '\x27', ')']))
      = some X := by
    apply searchWith_head
    show matchTripleAt '\x27'
      (finalKw ++ '(' :: ('\x27' :: '\x27' :: '\x27' :: (X ++ ['\x27', '\x27', '\x27', ')'])))
      = some X
    unfold matchTripleAt
    rw [matchOpen_append, dropSpaces_cons (by decide)]
    simp [greedyTriple_closes (by decide) X h7]
  show runPats [Pat.tripleDouble, Pat.tripleSingle, Pat.doubleQ, Pat.singleQ] _ = some X
  rw [runPats_cons_none htd, runPats_cons_some hts]

theorem word_not_space {c : Char} (h : pyIsWord c = true) : pyIsSpace c = false := by
  cases hs : pyIsSpace c with
  | false => rfl
  | true =>
    exfalso
    have hc : c = ' ' ∨ c = '\t' ∨ c = '\n' ∨ c = '\x0d' ∨ c = '\x0b' ∨ c = '\x0c' := by
      simpa [pyIsSpace, or_assoc] using hs
    rcases hc with rfl | rfl | rfl | rfl | rfl | rfl <;> exact absurd h (by decide)

theorem takeWhile_all_append {p : Char → Bool} :
    ∀ l : List Char, (∀ c ∈ l, p c = true) → ∀ (x : Char) (r : List Char),
      p x = false → (l ++ x :: r).takeWhile p = l := by
  intro l
  induction l with
  | nil =>
    intro _ x r hx
    simp [List.takeWhile_cons, hx]
  | cons c cs ih =>
    intro hall x r hx
    rw [List.cons_append, List.takeWhile_cons, hall c (List.mem_cons_self c cs)]
    simp only [ite_true]
    rw [ih (fun d hd => hall d (List.mem_cons_of_mem c hd)) x r hx]

theorem extract_final_var_pure (name : String) (env : Env) (hne : name.toList ≠ [])
    (hw : ∀ c ∈ name.toList, pyIsWord c = true) :
    extract_final_var ("FINAL_VAR(" ++ name ++ ")") env = (env.lookup name).map pyStrOf := by
  have heq : ("FINAL_VAR(" ++ name ++ ")").toList =
      finalVarKw ++ '(' :: (name.toList ++ [')']) := by
    have h1 : ("FINAL_VAR(" ++ name ++ ")").toList =
        "FINAL_VAR(".toList ++ name.toList ++ ")".toList := rfl
    rw [h1]
    have h2 : "FINAL_VAR(".toList = ['F', 'I', 'N', 'A', 'L', '_', 'V', 'A', 'R', '('] := rfl
    rw [h2]
    simp [finalVarKw]
  obtain ⟨c, cs, hcons⟩ : ∃ c cs, name.toList = c :: cs := by
    cases hn : name.toList with
    | nil => exact absurd hn hne
    | cons c cs => exact ⟨c, cs, rfl⟩
  have hcw : pyIsWord c = true := hw c (by rw [hcons]; exact List.mem_cons_self c cs)
  have hsearch : searchWith matchFinalVarAt (finalVarKw ++ '(' :: (name.toList ++ [')']))
      = some name.toList := by
    apply searchWith_head
    show matchFinalVarAt (finalVarKw ++ '(' :: (name.toList ++ [')'])) = some name.toList
    unfold matchFinalVarAt
    rw [matchOpen_append, hcons, List.cons_append, dropSpaces_cons (word_not_space hcw)]
    have htw : (c :: (cs ++ [')'])).takeWhile pyIsWord = c :: cs := by
      rw [← List.cons_append]
      exact takeWhile_all_append (c :: cs)
        (fun d hd => hw d (by rw [hcons]; exact hd)) ')' [] (by decide)
    have hdr : (c :: (cs ++ [')'])).drop (c :: cs).length = [')'] := by
      rw [← List.cons_append]
      exact List.drop_left (c :: cs) [')']
    simp only [htw, hdr]
    rw [dropSpaces_cons (by decide)]
    simp
  unfold extract_final_var
  rw [heq, hsearch]
  show (match env.lookup name with
        | some v => some (pyStrOf v)
        | none => none) = (env.lookup name).map pyStrOf
  cases hl : env.lookup name <;> simp [hl]

/-! ### Helper lemmas about the orchestrator loop -/

theorem rlmLoop_final_step {o : Nat → String} {e : String → Env → String × Env}
    {iter : Nat} {env : Env} {msgs : List Message} {st : RLMState} {rem : Nat} {a : String}
    (ha : (if is_final (o iter) then parse_response (o iter) env else none) = some a) :
    rlmLoop o e (rem + 1) iter env msgs st =
      ⟨.answer a, msgs, ⟨st.llm_calls + 1, iter + 1⟩⟩ := by
  simp only [rlmLoop, ha]

theorem rlmLoop_step_eq {o : Nat → String} {e : String → Env → String × Env}
    {iter : Nat} {env : Env} {msgs : List Message} {st : RLMState} {rem : Nat}
    (hnone : (if is_final (o iter) then parse_response (o iter) env else none) = none) :
    rlmLoop o e (rem + 1) iter env msgs st =
      rlmLoop o e rem (iter + 1) (e (o iter) env).2
        (msgs ++ [⟨"assistant", o iter⟩, ⟨"user", (e (o iter) env).1⟩])
        ⟨st.llm_calls + 1, iter + 1⟩ := by
  simp only [rlmLoop, hnone]

theorem rlmLoop_no_final_trace {o : Nat → String} {e : String → Env → String × Env}
    (env0 : Env) :
    ∀ rem iter msgs st,
      (∀ j, iter ≤ j → j < iter + rem → is_final (o j) = true →
        parse_response (o j) (envAt o e env0 j) = none) →
      (rlmLoop o e rem iter (envAt o e env0 iter) msgs st).outcome = .maxIterations ∧
      (rlmLoop o e rem iter (envAt o e env0 iter) msgs st).state.llm_calls
        = st.llm_calls + rem := by
  intro rem
  induction rem with
  | zero =>
    intro iter msgs st _
    exact ⟨rfl, by simp [rlmLoop]⟩
  | succ rem ih =>
    intro iter msgs st hor
    have hnone : (if is_final (o iter)
        then parse_response (o iter) (envAt o e env0 iter) else none) = none := by
      cases hf : is_final (o iter) with
      | true => simp [hor iter (le_refl iter) (by omega) hf]
      | false => simp
    rw [rlmLoop_step_eq hnone]
    have henv : (e (o iter) (envAt o e env0 iter)).2 = envAt o e env0 (iter + 1) := rfl
    rw [henv]
    obtain ⟨h1, h2⟩ := ih (iter + 1)
      (msgs ++ [⟨"assistant", o iter⟩, ⟨"user", (e (o iter) (envAt o e env0 iter)).1⟩])
      ⟨st.llm_calls + 1, iter + 1⟩
      (fun j hj1 hj2 => hor j (by omega) (by omega))
    refine ⟨h1, ?_⟩
    rw [h2]
    show st.llm_calls + 1 + rem = st.llm_calls + (rem + 1)
    omega

theorem rlmLoop_calls_shift {o : Nat → String} {e : String → Env → String × Env} :
    ∀ rem iter env msgs a b,
      (rlmLoop o e rem iter env msgs ⟨a, b⟩).state.llm_calls =
        a + (rlmLoop o e rem iter env msgs ⟨0, 0⟩).state.llm_calls := by
  intro rem
  induction rem with
  | zero =>
    intro iter env msgs a b
    simp [rlmLoop]
  | succ rem ih =>
    intro iter env msgs a b
    cases hs : (if is_final (o iter) then parse_response (o iter) env else none) with
    | some ans =>
      rw [rlmLoop_final_step hs, rlmLoop_final_step hs]
    | none =>
      rw [rlmLoop_step_eq hs, rlmLoop_step_eq hs]
      have h1 := ih (iter + 1) (e (o iter) env).2
        (msgs ++ [⟨"assistant", o iter⟩, ⟨"user", (e (o iter) env).1⟩]) (a + 1) (iter + 1)
      have h2 := ih (iter + 1) (e (o iter) env).2
        (msgs ++ [⟨"assistant", o iter⟩, ⟨"user", (e (o iter) env).1⟩]) (0 + 1) (iter + 1)
      show (rlmLoop o e rem (iter + 1) (e (o iter) env).2
          (msgs ++ [⟨"assistant", o iter⟩, ⟨"user", (e (o iter) env).1⟩])
          ⟨a + 1, iter + 1⟩).state.llm_calls
        = a + (rlmLoop o e rem (iter + 1) (e (o iter) env).2
          (msgs ++ [⟨"assistant", o iter⟩, ⟨"user", (e (o iter) env).1⟩])
          ⟨0 + 1, iter + 1⟩).state.llm_calls
      rw [h1, h2]
      omega

theorem rlmLoop_messages_origin {o : Nat → String} {e : String → Env → String × Env} :
    ∀ rem iter env msgs st m,
      m ∈ (rlmLoop o e rem iter env msgs st).messages →
      m ∈ msgs ∨ oracleMsg o m ∨ execMsg e m := by
  intro rem
  induction rem with
  | zero =>
    intro iter env msgs st m hm
    left
    simpa [rlmLoop] using hm
  | succ rem ih =>
    intro iter env msgs st m hm
    cases hs : (if is_final (o iter) then parse_response (o iter) env else none) with
    | some a =>
      rw [rlmLoop_final_step hs] at hm
      exact Or.inl hm
    | none =>
      rw [rlmLoop_step_eq hs] at hm
      rcases ih _ _ _ _ m hm with hin | h | h
      · rcases List.mem_append.mp hin with h1 | h2
        · exact Or.inl h1
        · simp only [List.mem_cons, List.not_mem_nil, or_false] at h2
          rcases h2 with rfl | rfl
          · exact Or.inr (Or.inl ⟨rfl, iter, rfl⟩)
          · exact Or.inr (Or.inr ⟨rfl, o iter, env, rfl⟩)
      · exact Or.inr (Or.inl h)
      · exact Or.inr (Or.inr h)

theorem acompletion_depth {cfg : RLMConfig} {spec : RunSpec} {st : RLMState}
    (h : cfg.max_depth ≤ spec.depth) :
    acompletion cfg spec st = ⟨.maxDepth, [], st⟩ := by
  unfold acompletion
  simp [h]

theorem acompletion_loop {cfg : RLMConfig} {spec : RunSpec} {st : RLMState}
    (h : spec.depth < cfg.max_depth) :
    acompletion cfg spec st =
      rlmLoop spec.oracle spec.exec cfg.max_iterations 0
        (build_repl_env (normalizeArgs spec.query spec.context).1
          (normalizeArgs spec.query spec.context).2)
        (mkInitialMessages (normalizeArgs spec.query spec.context).1
          (normalizeArgs spec.query spec.context).2 spec.depth) st := by
  unfold acompletion
  rw [if_neg (by omega)]

/-! ### Claim theorems -/

/-- C1 counterexample: the claim "the document text is never present
verbatim in any message, for any document length" fails on the code for
the one-character document `"R"`: the initial system message (the fixed
prompt text, which contains the words "Recursive" and "REPL") contains
the document `"R"` verbatim as a substring. -/
theorem c1_counterexample :
    (⟨"system", build_system_prompt (String.length "R") 0⟩ : Message)
        ∈ mkInitialMessages "q" "R" 0 ∧
    containsSub "R".toList (build_system_prompt (String.length "R") 0).toList = true :=
  ⟨List.mem_cons_self _ _, by decide⟩

/-- C1 (amended): the orchestrator itself never feeds the document into
the message sequence: the two initial messages are a function of the
document only through its character count (two documents of equal length
yield identical initial messages, so the document text cannot flow into
them), and every message appended during the loop is either the model's
own response or an observation string returned by the executor (which may
of course mention document text, e.g. when the executed code prints the
document). -/
theorem c1_amended :
    (∀ (q c₁ c₂ : String) (d : Nat), c₁.length = c₂.length →
        mkInitialMessages q c₁ d = mkInitialMessages q c₂ d) ∧
    (∀ (cfg : RLMConfig) (spec : RunSpec) (st : RLMState) (m : Message),
        m ∈ (acompletion cfg spec st).messages →
        m ∈ mkInitialMessages (normalizeArgs spec.query spec.context).1
            (normalizeArgs spec.query spec.context).2 spec.depth ∨
          oracleMsg spec.oracle m ∨ execMsg spec.exec m) := by
  constructor
  · intro q c₁ c₂ d h
    unfold mkInitialMessages
    rw [h]
  · intro cfg spec st m hm
    by_cases hd : cfg.max_depth ≤ spec.depth
    · rw [acompletion_depth hd] at hm
      simp at hm
    · rw [acompletion_loop (by omega)] at hm
      exact rlmLoop_messages_origin cfg.max_iterations 0 _ _ st m hm

/-- C1 witness: `c1_amended` evaluated at two concrete equal-length
documents, and at a concrete message of a concrete run. -/
theorem c1_witness :
    mkInitialMessages "q" "ab" 0 = mkInitialMessages "q" "cd" 0 ∧
    ((⟨"assistant", "x = 1"⟩ : Message) ∈ mkInitialMessages
        (normalizeArgs specLoopW.query specLoopW.context).1
        (normalizeArgs specLoopW.query specLoopW.context).2 specLoopW.depth ∨
      oracleMsg specLoopW.oracle ⟨"assistant", "x = 1"⟩ ∨
      execMsg specLoopW.exec ⟨"assistant", "x = 1"⟩) :=
  ⟨c1_amended.1 "q" "ab" "cd" 0 (by decide),
   c1_amended.2 cfgW specLoopW ⟨0, 0⟩ ⟨"assistant", "x = 1"⟩ (by decide)⟩

/-- C2 counterexample: the claim "the observation string returned by
execute never exceeds the configured character budget" fails: with budget
5 and captured output "abcdef", the returned observation is the first 5
characters plus the truncation marker, which is longer than 5. -/
theorem c2_counterexample :
    ¬ (observation 5 "abcdef").length ≤ 5 ∧
    observation 5 "abcdef" =
      "abcde" ++ "\n\n[Output truncated: 6 chars total, showing first 5]" := by
  decide

/-- C2 (amended): when the captured output exceeds the budget, the
observation is exactly the first `budget` characters of the output
followed by a blank line and the marker
`[Output truncated: <originalLength> chars total, showing first <budget>]`
with the true original length; the output portion is capped at the budget,
but the whole observation (output portion plus marker) is strictly longer
than the budget. -/
theorem c2_amended (budget : Nat) (output : String) (h : budget < output.length) :
    observation budget output =
      (⟨output.toList.take budget⟩ : String) ++ "\n\n[Output truncated: " ++
        toString output.length ++ " chars total, showing first " ++
        toString budget ++ "]" ∧
    (⟨output.toList.take budget⟩ : String).length ≤ budget ∧
    budget < (observation budget output).length := by
  have hne : output ≠ "" := by
    intro he
    subst he
    have h0 : ("" : String).length = 0 := rfl
    omega
  have hobs : observation budget output =
      (⟨output.toList.take budget⟩ : String) ++ "\n\n[Output truncated: " ++
        toString output.length ++ " chars total, showing first " ++
        toString budget ++ "]" := by
    unfold observation
    rw [if_neg hne, if_pos h]
  have hlen : (⟨output.toList.take budget⟩ : String).length = budget := by
    show (output.toList.take budget).length = budget
    rw [List.length_take]
    have hl : output.length = output.toList.length := rfl
    omega
  refine ⟨hobs, le_of_eq hlen, ?_⟩
  rw [hobs]
  rw [String.length_append, String.length_append, String.length_append,
    String.length_append, String.length_append, hlen]
  have h2 : ("\n\n[Output truncated: " : String).length = 21 := by decide
  omega

/-- C2 witness: `c2_amended` at budget 5 and output "abcdef". -/
theorem c2_witness :
    observation 5 "abcdef" =
      (⟨"abcdef".toList.take 5⟩ : String) ++ "\n\n[Output truncated: " ++
        toString (String.length "abcdef") ++ " chars total, showing first " ++
        toString 5 ++ "]" ∧
    (⟨"abcdef".toList.take 5⟩ : String).length ≤ 5 ∧
    5 < (observation 5 "abcdef").length :=
  c2_amended 5 "abcdef" (by decide)

/-- C3: a run below the depth limit in which no model response ever
yields a resolvable terminal statement — resolution is attempted against
the run's own environment trace `envAt`, so a terminal marker such as
`FINAL_VAR(missing)` that only fails to resolve in this run's
environments is covered — ends with `MaxIterationsError` after exactly
`max_iterations` model calls, whatever the executor does (failed
executions are just observation strings to the loop). -/
theorem c3_iterations_exhausted (cfg : RLMConfig) (spec : RunSpec) (st : RLMState)
    (_hN : 1 ≤ cfg.max_iterations) (hd : spec.depth < cfg.max_depth)
    (hor : ∀ i, i < cfg.max_iterations → is_final (spec.oracle i) = true →
      parse_response (spec.oracle i)
        (envAt spec.oracle spec.exec
          (build_repl_env (normalizeArgs spec.query spec.context).1
            (normalizeArgs spec.query spec.context).2) i) = none) :
    (acompletion cfg spec st).outcome = .maxIterations ∧
    (acompletion cfg spec st).state.llm_calls = st.llm_calls + cfg.max_iterations := by
  rw [acompletion_loop hd]
  exact rlmLoop_no_final_trace
    (build_repl_env (normalizeArgs spec.query spec.context).1
      (normalizeArgs spec.query spec.context).2)
    cfg.max_iterations 0 _ st (fun j _ hj2 => hor j (by omega))

/-- C3 witness: two runs with `max_iterations = 3` that each make exactly
3 model calls and end with the IterationsExceeded condition: one whose
responses all carry the terminal marker `FINAL_VAR(missing)` that is
unresolvable only in the run's actual environments, and one whose
responses `x = 1` carry no marker at all while every execution fails. -/
theorem c3_witness :
    ((acompletion cfgW specVarLoopW ⟨0, 0⟩).outcome = .maxIterations ∧
      (acompletion cfgW specVarLoopW ⟨0, 0⟩).state.llm_calls = 0 + 3) ∧
    ((acompletion cfgW specLoopW ⟨0, 0⟩).outcome = .maxIterations ∧
      (acompletion cfgW specLoopW ⟨0, 0⟩).state.llm_calls = 0 + 3) :=
  ⟨c3_iterations_exhausted cfgW specVarLoopW ⟨0, 0⟩ (by decide) (by decide) (by decide),
   c3_iterations_exhausted cfgW specLoopW ⟨0, 0⟩ (by decide) (by decide) (by decide)⟩

/-- C4: a session whose depth is at least `max_depth` fails immediately
with `MaxDepthError`: no model call is made (the counters are returned
unchanged) and no message is ever built, for every query and document,
including a call constructed with a non-zero starting depth. -/
theorem c4_depth_precondition (cfg : RLMConfig) (spec : RunSpec) (st : RLMState)
    (h : cfg.max_depth ≤ spec.depth) :
    acompletion cfg spec st = ⟨.maxDepth, [], st⟩ :=
  acompletion_depth h

/-- C4 witness: a session at depth 2 with `max_depth = 2` fails with
`MaxDepthError` and leaves the call counter at its prior value 7. -/
theorem c4_witness :
    acompletion cfgDepthW specDepthW ⟨7, 1⟩ = ⟨.maxDepth, [], ⟨7, 1⟩⟩ :=
  c4_depth_precondition cfgDepthW specDepthW ⟨7, 1⟩ (by decide)

/-- C5 counterexample: the claim says the four quoting styles are checked
in the priority order double, single, triple-double, triple-single.  On
`FINAL("""x""")` that order would capture the empty string with the
double-quote pattern, but the code returns `x`: the source checks the
triple-quoted styles first. -/
theorem c5_counterexample :
    extract_final "FINAL(\x22\x22\x22x\x22\x22\x22)" = some "x" ∧
    extract_final_claimOrder "FINAL(\x22\x22\x22x\x22\x22\x22)" = some "" ∧
    some "x" ≠ some "" := by
  decide

/-- C5 (amended): the inline-literal extractor checks the four quoting
styles in the priority order triple-double-quote, triple-single-quote,
double-quote, single-quote, and returns the first match (stripped). -/
theorem c5_amended (response : String) :
    extract_final response =
      ((runPat .tripleDouble response.toList).orElse fun _ =>
        (runPat .tripleSingle response.toList).orElse fun _ =>
          (runPat .doubleQ response.toList).orElse fun _ =>
            runPat .singleQ response.toList).map
        (fun r => (⟨pyStripList r⟩ : String)) := by
  cases h1 : runPat .tripleDouble response.toList with
  | some r =>
    simp only [String.toList] at h1
    simp [extract_final, patterns, runPats, h1, Option.orElse, String.toList]
  | none =>
    simp only [String.toList] at h1
    cases h2 : runPat .tripleSingle response.toList with
    | some r =>
      simp only [String.toList] at h2
      simp [extract_final, patterns, runPats, h1, h2, Option.orElse, String.toList]
    | none =>
      simp only [String.toList] at h2
      cases h3 : runPat .doubleQ response.toList with
      | some r =>
        simp only [String.toList] at h3
        simp [extract_final, patterns, runPats, h1, h2, h3, Option.orElse, String.toList]
      | none =>
        simp only [String.toList] at h3
        cases h4 : runPat .singleQ response.toList with
        | some r =>
          simp only [String.toList] at h4
          simp [extract_final, patterns, runPats, h1, h2, h3, h4, Option.orElse,
            String.toList]
        | none =>
          simp only [String.toList] at h4
          simp [extract_final, patterns, runPats, h1, h2, h3, h4, Option.orElse,
            String.toList]

/-- C5 witness: `c5_amended` at a concrete response. -/
theorem c5_witness :
    extract_final "FINAL(\x27hi\x27)" =
      ((runPat .tripleDouble "FINAL(\x27hi\x27)".toList).orElse fun _ =>
        (runPat .tripleSingle "FINAL(\x27hi\x27)".toList).orElse fun _ =>
          (runPat .doubleQ "FINAL(\x27hi\x27)".toList).orElse fun _ =>
            runPat .singleQ "FINAL(\x27hi\x27)".toList).map
        (fun r => (⟨pyStripList r⟩ : String)) :=
  c5_amended "FINAL(\x27hi\x27)"

/-- C6 counterexample: the claim quantifies over every text containing
`FINAL("X")`, but extraction returns the first match: the text
`FINAL("a") FINAL("b")` contains `FINAL("b")` yet resolves to `a`,
not `b`. -/
theorem c6_counterexample :
    strContains "FINAL(\x22a\x22) FINAL(\x22b\x22)" "FINAL(\x22b\x22)" = true ∧
    extract_final "FINAL(\x22a\x22) FINAL(\x22b\x22)" = some "a" ∧
    some "a" ≠ some "b" := by
  decide

/-- C6 (amended): extraction returns the priority-first, leftmost match;
for a text of the exact form `FINAL(<delim>X<delim>)` whose content `X`
contains neither quote character (so no other occurrence of a terminal
form can match first), the result is exactly `X` with leading and
trailing whitespace trimmed and internal whitespace preserved, for all
four quoting styles, including content with embedded newlines inside the
triple-quoted forms. -/
theorem c6_amended (X : String) (h2 : '\x22' ∉ X.toList) (h7 : '\x27' ∉ X.toList) :
    extract_final ("FINAL(\x22" ++ X ++ "\x22)") = some (pyStrip X) ∧
    extract_final ("FINAL(\x27" ++ X ++ "\x27)") = some (pyStrip X) ∧
    extract_final ("FINAL(\x22\x22\x22" ++ X ++ "\x22\x22\x22)") = some (pyStrip X) ∧
    extract_final ("FINAL(\x27\x27\x27" ++ X ++ "\x27\x27\x27)") = some (pyStrip X) := by
  refine ⟨?_, ?_, ?_, ?_⟩
  · unfold extract_final
    have heq : ("FINAL(\x22" ++ X ++ "\x22)").toList =
        finalKw ++ '(' :: '\x22' :: (X.toList ++ ['\x22', ')']) := by
      have e1 : ("FINAL(\x22" ++ X ++ "\x22)").toList =
          "FINAL(\x22".toList ++ X.toList ++ "\x22)".toList := rfl
      have e2 : "FINAL(\x22".toList = ['F', 'I', 'N', 'A', 'L', '(', '\x22'] := by decide
      have e3 : "\x22)".toList = ['\x22', ')'] := by decide
      rw [e1, e2, e3]
      simp [finalKw]
    rw [heq, runPats_double h2 h7]
    rfl
  · unfold extract_final
    have heq : ("FINAL(\x27" ++ X ++ "\x27)").toList =
        finalKw ++ '(' :: '\x27' :: (X.toList ++ ['\x27', ')']) := by
      have e1 : ("FINAL(\x27" ++ X ++ "\x27)").toList =
          "FINAL(\x27".toList ++ X.toList ++ "\x27)".toList := rfl
      have e2 : "FINAL(\x27".toList = ['F', 'I', 'N', 'A', 'L', '(', '\x27'] := by decide
      have e3 : "\x27)".toList = ['\x27', ')'] := by decide
      rw [e1, e2, e3]
      simp [finalKw]
    rw [heq, runPats_single h2 h7]
    rfl
  · unfold extract_final
    have heq : ("FINAL(\x22\x22\x22" ++ X ++ "\x22\x22\x22)").toList =
        finalKw ++ '(' :: '\x22' :: '\x22' :: '\x22' ::
          (X.toList ++ ['\x22', '\x22', '\x22', ')']) := by
      have e1 : ("FINAL(\x22\x22\x22" ++ X ++ "\x22\x22\x22)").toList =
          "FINAL(\x22\x22\x22".toList ++ X.toList ++ "\x22\x22\x22)".toList := rfl
      have e2 : "FINAL(\x22\x22\x22".toList =
          ['F', 'I', 'N', 'A', 'L', '(', '\x22', '\x22', '\x22'] := by decide
      have e3 : "\x22\x22\x22)".toList = ['\x22', '\x22', '\x22', ')'] := by decide
      rw [e1, e2, e3]
      simp [finalKw]
    rw [heq, runPats_tripleDouble h2]
    rfl
  · unfold extract_final
    have heq : ("FINAL(\x27\x27\x27" ++ X ++ "\x27\x27\x27)").toList =
        finalKw ++ '(' :: '\x27' :: '\x27' :: '\x27' ::
          (X.toList ++ ['\x27', '\x27', '\x27', ')']) := by
      have e1 : ("FINAL(\x27\x27\x27" ++ X ++ "\x27\x27\x27)").toList =
          "FINAL(\x27\x27\x27".toList ++ X.toList ++ "\x27\x27\x27)".toList := rfl
      have e2 : "FINAL(\x27\x27\x27".toList =
          ['F', 'I', 'N', 'A', 'L', '(', '\x27', '\x27', '\x27'] := by decide
      have e3 : "\x27\x27\x27)".toList = ['\x27', '\x27', '\x27', ')'] := by decide
      rw [e1, e2, e3]
      simp [finalKw]
    rw [heq, runPats_tripleSingle h2 h7]
    rfl

/-- C6 witness: `c6_amended` at the quote-free content `"  a\nb  "`,
whose embedded newline survives and whose outer whitespace is trimmed in
all four quoting styles. -/
theorem c6_witness :
    extract_final ("FINAL(\x22" ++ "  a\nb  " ++ "\x22)") = some (pyStrip "  a\nb  ") ∧
    extract_final ("FINAL(\x27" ++ "  a\nb  " ++ "\x27)") = some (pyStrip "  a\nb  ") ∧
    extract_final ("FINAL(\x22\x22\x22" ++ "  a\nb  " ++ "\x22\x22\x22)")
      = some (pyStrip "  a\nb  ") ∧
    extract_final ("FINAL(\x27\x27\x27" ++ "  a\nb  " ++ "\x27\x27\x27)")
      = some (pyStrip "  a\nb  ") :=
  c6_amended "  a\nb  " (by decide) (by decide)

/-- C7 counterexample: the claim says an absent variable yields the
string "no answer found"; the code yields no result at all (`None`) —
the string "no answer found" is produced nowhere. -/
theorem c7_counterexample :
    extract_final_var "FINAL_VAR(x)" [] = none ∧
    (none : Option String) ≠ some "no answer found" := by
  decide

/-- C7 (amended): for a variable-reference response `FINAL_VAR(name)`,
resolution returns `str(environment[name])` when `name` is bound and is
absent (`None`) — not the string "no answer found" — when `name` is
unbound; resolution is a total function, so it never raises, and on an
unresolved terminal statement the orchestrator loop proceeds to execute
the response and append the message pair instead of crashing or
returning an answer. -/
theorem c7_amended :
    (∀ (name : String) (env : Env), name.toList ≠ [] →
        (∀ c ∈ name.toList, pyIsWord c = true) →
        extract_final_var ("FINAL_VAR(" ++ name ++ ")") env =
          (env.lookup name).map pyStrOf) ∧
    (∀ (o : Nat → String) (e : String → Env → String × Env)
        (rem iter : Nat) (env : Env) (msgs : List Message) (st : RLMState),
        is_final (o iter) = true → parse_response (o iter) env = none →
        rlmLoop o e (rem + 1) iter env msgs st =
          rlmLoop o e rem (iter + 1) (e (o iter) env).2
            (msgs ++ [⟨"assistant", o iter⟩, ⟨"user", (e (o iter) env).1⟩])
            ⟨st.llm_calls + 1, iter + 1⟩) := by
  constructor
  · exact extract_final_var_pure
  · intro o e rem iter env msgs st hf hp
    exact rlmLoop_step_eq (by simp [hf, hp])

/-- C7 witness: `c7_amended` at the bound name `x` in `envW`, at the
unbound name `x` in the empty environment, and at a concrete loop state
with the unresolvable response `FINAL_VAR(missing)`. -/
theorem c7_witness :
    extract_final_var ("FINAL_VAR(" ++ "x" ++ ")") envW =
      (envW.lookup "x").map pyStrOf ∧
    extract_final_var ("FINAL_VAR(" ++ "x" ++ ")") [] =
      (List.lookup "x" ([] : Env)).map pyStrOf ∧
    rlmLoop oracleVarW execW 1 0 [] [] ⟨0, 0⟩ =
      rlmLoop oracleVarW execW 0 1 (execW (oracleVarW 0) []).2
        ([] ++ [⟨"assistant", oracleVarW 0⟩, ⟨"user", (execW (oracleVarW 0) []).1⟩])
        ⟨0 + 1, 0 + 1⟩ :=
  ⟨c7_amended.1 "x" envW (by decide) (by decide),
   c7_amended.1 "x" [] (by decide) (by decide),
   c7_amended.2 oracleVarW execW 0 0 [] [] ⟨0, 0⟩ (by decide) (by decide)⟩

/-- C8 counterexample: the claim says the final line's value is appended
whenever that line is a standalone expression (not an assignment, not
starting a control-flow construct).  For the fragment `life = 1\nlife`
the final line `life` is such a standalone expression, yet the code
appends nothing, because it tests the eight keywords by substring
containment and `life` contains `if`. -/
theorem c8_counterexample :
    specStandaloneExpr "life = 1\nlife" = true ∧
    composedOutput "life = 1\nlife" "out" (some "1") = "out" ∧
    ("out" : String) ≠ "out" ++ "1" ++ "\n" := by
  decide

/-- C8 (amended): the observation's captured part is the stream output,
and the textual form of the final line's value (followed by a newline) is
appended exactly when the stripped final line of the stripped fragment is
non-empty and contains none of the eight substrings `=`, `import`, `def`,
`class`, `if`, `for`, `while`, `with` anywhere in the line (substring
containment, not just a leading keyword) — and the evaluation produced a
value; the composed output then goes through the empty-message/strip/
truncation post-processing of `executeObservation`. -/
theorem c8_amended (code streamOut v : String) :
    composedOutput code streamOut (some v) =
      (if evalsLastLine code then streamOut ++ v ++ "\n" else streamOut) ∧
    composedOutput code streamOut none = streamOut ∧
    (evalsLastLine code = true ↔
      lastLineOf code ≠ [] ∧
      ∀ kw ∈ kwChecks, containsSub kw (lastLineOf code) = false) ∧
    executeObservation 2000 code streamOut (some v) =
      observation 2000 (composedOutput code streamOut (some v)) := by
  refine ⟨?_, ?_, ?_, rfl⟩
  · unfold composedOutput
    by_cases h : evalsLastLine code <;> simp [h]
  · unfold composedOutput
    by_cases h : evalsLastLine code <;> simp [h]
  · unfold evalsLastLine
    simp [List.any_eq_true, not_exists, List.isEmpty_iff]

/-- C8 witness: `c8_amended` at the fragment `count` (a bare expression
whose value is appended), stream output `o` and value `3`. -/
theorem c8_witness :
    composedOutput "count" "o" (some "3") =
      (if evalsLastLine "count" then "o" ++ "3" ++ "\n" else "o") ∧
    composedOutput "count" "o" none = "o" ∧
    (evalsLastLine "count" = true ↔
      lastLineOf "count" ≠ [] ∧
      ∀ kw ∈ kwChecks, containsSub kw (lastLineOf "count") = false) ∧
    executeObservation 2000 "count" "o" (some "3") =
      observation 2000 (composedOutput "count" "o" (some "3")) :=
  c8_amended "count" "o" "3"

/-- C9: a response whose first-matching inline form is the empty literal
(e.g. `FINAL("")`) is a valid terminal statement: resolution succeeds
with the empty string in every environment, and the orchestrator returns
the empty string as the final answer after exactly one model call,
instead of treating it as unresolved. -/
theorem c9_empty_final (cfg : RLMConfig) (spec : RunSpec) (st : RLMState)
    (hd : spec.depth < cfg.max_depth) (hN : 1 ≤ cfg.max_iterations)
    (hf : is_final (spec.oracle 0) = true)
    (he : extract_final (spec.oracle 0) = some "") :
    (∀ env : Env, parse_response (spec.oracle 0) env = some "") ∧
    (acompletion cfg spec st).outcome = .answer "" ∧
    (acompletion cfg spec st).state.llm_calls = st.llm_calls + 1 := by
  have hp : ∀ env : Env, parse_response (spec.oracle 0) env = some "" := by
    intro env
    unfold parse_response
    rw [he]
  obtain ⟨k, hk⟩ : ∃ k, cfg.max_iterations = k + 1 := ⟨cfg.max_iterations - 1, by omega⟩
  have hrun : acompletion cfg spec st =
      ⟨.answer "", mkInitialMessages (normalizeArgs spec.query spec.context).1
        (normalizeArgs spec.query spec.context).2 spec.depth,
       ⟨st.llm_calls + 1, 0 + 1⟩⟩ := by
    rw [acompletion_loop hd, hk]
    exact rlmLoop_final_step (by simp [hf, hp])
  refine ⟨hp, ?_, ?_⟩
  · rw [hrun]
  · rw [hrun]

/-- C9 witness: `c9_empty_final` on a run whose first response is
`FINAL("")`, started with the call counter at 4. -/
theorem c9_witness :
    parse_response (specFinalW.oracle 0) [] = some "" ∧
    (acompletion cfgW specFinalW ⟨4, 9⟩).outcome = .answer "" ∧
    (acompletion cfgW specFinalW ⟨4, 9⟩).state.llm_calls = 4 + 1 :=
  ⟨(c9_empty_final cfgW specFinalW ⟨4, 9⟩ (by decide) (by decide) (by decide)
      (by decide)).1 [],
   (c9_empty_final cfgW specFinalW ⟨4, 9⟩ (by decide) (by decide) (by decide)
      (by decide)).2.1,
   (c9_empty_final cfgW specFinalW ⟨4, 9⟩ (by decide) (by decide) (by decide)
      (by decide)).2.2⟩

/-- C10: the model-call counter accumulates across completion runs on the
same instance and is never reset: after any sequence of runs the
`llm_calls` entry of the statistics snapshot equals its value before the
sequence plus the sum of the calls made by each individual run. -/
theorem c10_calls_accumulate (cfg : RLMConfig) (rs : List RunSpec)
    (st : RLMState) (d : Nat) :
    (stats (runMany cfg rs st) d).llm_calls =
      (stats st d).llm_calls + (rs.map (callsMade cfg)).sum := by
  induction rs generalizing st with
  | nil => simp [runMany, stats]
  | cons r rs ih =>
    have hshift : (acompletion cfg r st).state.llm_calls =
        st.llm_calls + callsMade cfg r := by
      unfold callsMade
      by_cases hd2 : cfg.max_depth ≤ r.depth
      · rw [acompletion_depth hd2, acompletion_depth hd2]
        simp
      · rw [acompletion_loop (by omega), acompletion_loop (by omega)]
        cases st with
        | mk a b =>
          rw [rlmLoop_calls_shift cfg.max_iterations 0 _ _ a b]
    simp only [runMany]
    rw [ih]
    simp only [stats, List.map_cons, List.sum_cons]
    omega

/-- C10 witness: `c10_calls_accumulate` for a concrete two-run sequence
starting from a counter of 2. -/
theorem c10_witness :
    (stats (runMany cfgW [specLoopW, specFinalW] ⟨2, 0⟩) 0).llm_calls =
      (stats (⟨2, 0⟩ : RLMState) 0).llm_calls +
        ([specLoopW, specFinalW].map (callsMade cfgW)).sum :=
  c10_calls_accumulate cfgW [specLoopW, specFinalW] ⟨2, 0⟩ 0

end RLMSpec
